import Mathlib

/-!
Verification of the quality-problem-prevention RAG chatbot.

The repository is Python glue over external services (OpenAI embeddings/LLM,
FAISS, langchain loaders).  This file gives a shallow embedding of the
repository's own logic:

* `loaders/load_documents.py` — extension dispatch, metadata attachment,
  per-file failure tolerance (the format parsers themselves are external and
  are modelled by each file carrying the outcome of its parse);
* `vectorstore/build_vectorstore.py` — empty-input validation and the
  chunking pipeline (the text splitter is a third-party library; it is
  modelled from the spec, see `splitText`);
* `rag/query_handler.py` — the four query operations, including the
  uninitialised-store short-circuits, source formatting and multi-keyword
  deduplication (FAISS similarity search and the LLM are modelled as opaque
  functions; Python's built-in string hash is an opaque function `pyhash`);
* the startup behaviour of `main.py` and `demo.py` with respect to the
  `OPENAI_API_KEY` environment variable, modelled as action traces.

Text is modelled as `List Char` (Python `str` indexing/slicing is by code
point, matching `List Char` operations).  Python dicts with string keys are
modelled as insertion-ordered association lists.
-/

/-! Metadata: a Python dict with string keys and values -/

abbrev Metadata := List (String × String)

/-- Python `d.get(key, default)` on a dict. -/
def metaGetD (m : Metadata) (key dflt : String) : String :=
  match m.find? (fun p => p.1 == key) with
  | some p => p.2
  | none => dflt

/-- Python `d[key] = val` on a dict: overwrite in place if the key is
present, otherwise append (insertion order is preserved). -/
def metaSet (m : Metadata) (key val : String) : Metadata :=
  if m.any (fun p => p.1 == key) then
    m.map (fun p => if p.1 == key then (key, val) else p)
  else
    m ++ [(key, val)]

/-- A langchain `Document`: page content plus a metadata dict. -/
structure Doc where
  page_content : List Char
  metadata : Metadata
deriving DecidableEq

/-! Document loader (`loaders/load_documents.py`) -/

/-- The suffix of `name` starting at its last `'.'` (empty if no dot). -/
def lastDotSuffix : List Char → List Char
  | [] => []
  | c :: rest =>
    if '.' ∈ rest then lastDotSuffix rest
    else if c = '.' then c :: rest
    else []

/-- Python `os.path.splitext(name)[1]` for a base name (no path separators): the
extension starting at the last dot, except that a name whose characters
before the last dot are all dots (e.g. `".bashrc"`) has no extension. -/
def splitextExt (name : List Char) : List Char :=
  let suf := lastDotSuffix name
  let pre := name.take (name.length - suf.length)
  if pre.any (fun c => c ≠ '.') then suf else []

/-- The raw (case-preserving) extension of a file name. -/
def rawExtOf (name : String) : String :=
  String.mk (splitextExt name.data)

/-- Python `s.lower()` (ASCII case folding suffices for the extension sets used). -/
def lowerStr (s : String) : String :=
  String.mk (s.data.map Char.toLower)

/-- The expression `os.path.splitext(file)[1].lower()` as computed by the loader. -/
def file_ext_of (name : String) : String :=
  String.mk ((splitextExt name.data).map Char.toLower)

/-- The keys of `DocumentLoader.supported_extensions`. -/
def supported_extensions : List String :=
  [".txt", ".pdf", ".xlsx", ".xls", ".docx", ".doc", ".csv"]

instance (α β : Type) [DecidableEq α] [DecidableEq β] :
    DecidableEq (Except α β) := fun x y =>
  match x, y with
  | .ok a, .ok b =>
    if h : a = b then isTrue (by rw [h]) else isFalse (by intro hc; cases hc; exact h rfl)
  | .error a, .error b =>
    if h : a = b then isTrue (by rw [h]) else isFalse (by intro hc; cases hc; exact h rfl)
  | .ok _, .error _ => isFalse (by intro hc; cases hc)
  | .error _, .ok _ => isFalse (by intro hc; cases hc)

/-- A file on disk, as seen by the loader: its base name, its full path, and
the outcome of handing it to its format parser (`loader.load()`).  The
format parsers are external libraries, so the parse outcome is part of the
model's input. -/
structure PFile where
  name : String
  path : String
  parse : Except String (List Doc)
deriving DecidableEq

/-- The filesystem, restricted to what the loader observes: each folder path
either does not exist (`none`) or yields the files `os.walk` enumerates. -/
abbrev FileSystem := String → Option (List PFile)

/-- The metadata enrichment performed on every loaded document:
`doc.metadata['source_file'] = file`, `doc.metadata['source_path'] =
file_path`, `doc.metadata['file_type'] = file_ext`. -/
def attach_meta (d : Doc) (f : PFile) (ext : String) : Doc :=
  { d with
    metadata :=
      metaSet (metaSet (metaSet d.metadata "source_file" f.name)
        "source_path" f.path) "file_type" ext }

/-- Embedding of `DocumentLoader.load_all_documents`: skip unsupported extensions, catch
per-file parse failures, enrich metadata, accumulate. -/
def load_all_documents (fs : FileSystem) (data_folder : String) : List Doc :=
  match fs data_folder with
  | none => []
  | some files =>
    files.foldl
      (fun all_documents file =>
        let ext := file_ext_of file.name
        if ext ∈ supported_extensions then
          match file.parse with
          | .ok docs => all_documents ++ docs.map (fun d => attach_meta d file ext)
          | .error _ => all_documents
        else all_documents)
      []

/-- The documents a single file contributes to `load_all_documents`. -/
def fileDocs (file : PFile) : List Doc :=
  let ext := file_ext_of file.name
  if ext ∈ supported_extensions then
    match file.parse with
    | .ok docs => docs.map (fun d => attach_meta d file ext)
    | .error _ => []
  else []

/-- Embedding of `DocumentLoader.load_documents_by_type`: same walk, but a file is
processed only when its lowercased extension equals the lowercased requested
type.  (Looking up the parser for an extension outside the supported set
raises a `KeyError`, which the surrounding `try` swallows, so such a file
contributes nothing.) -/
def load_documents_by_type (fs : FileSystem) (data_folder : String)
    (file_type : String) : List Doc :=
  match fs data_folder with
  | none => []
  | some files =>
    files.foldl
      (fun documents file =>
        let ext := file_ext_of file.name
        if ext == lowerStr file_type then
          if ext ∈ supported_extensions then
            match file.parse with
            | .ok docs => documents ++ docs.map (fun d => attach_meta d file ext)
            | .error _ => documents
          else documents
        else documents)
      []

/-- Embedding of `load_quality_documents`: convenience wrapper. -/
def load_quality_documents (fs : FileSystem) (data_folder : String) : List Doc :=
  load_all_documents fs data_folder

/-! Chunker (`vectorstore/build_vectorstore.py`, `RecursiveCharacterTextSplitter`) -/

/-- The `chunk_size=1000` setting in `VectorStoreBuilder.__init__`. -/
def chunk_size : Nat := 1000

/-- The `chunk_overlap=200` setting in `VectorStoreBuilder.__init__`. -/
def chunk_overlap : Nat := 200

/-- Fuel-indexed worker for `splitText`; the fuel only forces termination
and any fuel above the text length gives the same answer. -/
def splitTextAux : Nat → List Char → List (List Char)
  | 0, _ => []
  | fuel + 1, text =>
    if text.length ≤ chunk_size then [text]
    else text.take chunk_size :: splitTextAux fuel (text.drop (chunk_size - chunk_overlap))

/-- Modelled from the spec: the text splitter is the third-party
`RecursiveCharacterTextSplitter` (configured with `chunk_size=1000`,
`chunk_overlap=200`, `length_function=len`), whose source is not part of
this repository.  Per the spec, “splitting is purely length-based”: a text
no longer than the chunk size is one chunk; otherwise successive windows of
`chunk_size` characters are emitted, each window starting
`chunk_size - chunk_overlap` characters after the previous one. -/
def splitText (text : List Char) : List (List Char) :=
  splitTextAux (text.length + 1) text

/-- Embedding of `text_splitter.split_documents`: split each document's text, each chunk
carrying a copy of the parent document's metadata. -/
def split_documents (docs : List Doc) : List Doc :=
  (docs.map (fun d =>
    (splitText d.page_content).map (fun c => Doc.mk c d.metadata))).flatten

/-- Concatenation of a chunk list after removing the overlapping margin at
the head of every chunk but the first. -/
def reconstruct : List (List Char) → List Char
  | [] => []
  | c :: rest => c ++ (rest.map (fun x => x.drop chunk_overlap)).flatten

/-! Vector store builder (`vectorstore/build_vectorstore.py`) -/

/-- FAISS is external; an index is modelled as the chunk list it was built
from (`FAISS.from_documents(split_docs, embeddings)`). -/
abbrev FAISSIndex := List Doc

/-- Embedding of `VectorStoreBuilder.build_vectorstore`: raise `ValueError` on an empty
document list before anything is embedded or indexed; otherwise split and
build. -/
def build_vectorstore (documents : List Doc) : Except String FAISSIndex :=
  if documents.isEmpty then
    .error "ドキュメントが空です。ベクトルストアを構築できません。"
  else
    .ok (split_documents documents)

/-- Embedding of `build_vectorstore_from_folder`: load the folder, raise `ValueError`
when it yields no documents, otherwise build and save.  (Saving is a
filesystem effect with no observable result here.) -/
def build_vectorstore_from_folder (fs : FileSystem) (data_folder : String) :
    Except String FAISSIndex :=
  let documents := load_quality_documents fs data_folder
  if documents.isEmpty then
    .error ("フォルダ内にドキュメントが見つかりませんでした: " ++ data_folder)
  else
    build_vectorstore documents

/-! Query handler (`rag/query_handler.py`) -/

/-- FAISS similarity search, modelled as opaque query functions.  The
distance score is a float in the source; no claim depends on score values,
so scores are modelled as an opaque integer-valued quantity. -/
structure VectorStore where
  similarity_search : String → Nat → List Doc
  similarity_search_with_score : String → Nat → List (Doc × Int)

/-- The `RAGQueryHandler` state, together with the two external ingredients its
methods consume: the LLM invocation (prompt template + `ChatOpenAI`,
abstracted as a function of the question and the retrieved context
documents) and Python's built-in `hash` on strings (used by
`search_by_keywords`; only `x = y → hash x = hash y` is inherent, which
holds for any function of the content). -/
structure RAGQueryHandler where
  vectorstore : Option VectorStore
  llm : String → List Doc → String
  pyhash : List Char → Int

/-- One entry of the `search_similar_cases` result list. -/
structure CaseResult where
  content : List Char
  metadata : Metadata
  similarity_score : Int
deriving DecidableEq

/-- Embedding of `RAGQueryHandler.search_similar_cases`. -/
def search_similar_cases (h : RAGQueryHandler) (query : String) (k : Nat := 5) :
    List CaseResult :=
  match h.vectorstore with
  | none => []
  | some vs =>
    (vs.similarity_search_with_score query k).map (fun p =>
      { content := p.1.page_content
        metadata := p.1.metadata
        similarity_score := p.2 })

/-- One entry of the `sources` list returned by `handle_query`. -/
structure SourceInfo where
  file : String
  type : String
  content_preview : List Char
deriving DecidableEq

/-- The dictionary returned by `handle_query`. -/
structure QueryResponse where
  answer : String
  sources : List SourceInfo
deriving DecidableEq

/-- The placeholder answer returned when no vector store is loaded. -/
def notInitializedAnswer : String :=
  "エラー: ベクトルストアが読み込まれていません。先にインデックスを構築してください。"

/-- The per-source dictionary built by `handle_query`:
`doc.metadata.get(..., "不明")` and `doc.page_content[:200] + "..."`. -/
def sourceInfoOfDoc (doc : Doc) : SourceInfo :=
  { file := metaGetD doc.metadata "source_file" "不明"
    type := metaGetD doc.metadata "file_type" "不明"
    content_preview := doc.page_content.take 200 ++ "...".data }

/-- Embedding of `RAGQueryHandler.handle_query`: short-circuit when uninitialised;
otherwise the `RetrievalQA` chain retrieves with `search_kwargs={"k": 5}`,
invokes the LLM once on the retrieved context, and formats the sources when
`return_sources` was requested. -/
def handle_query (h : RAGQueryHandler) (query : String)
    (return_sources : Bool := true) : QueryResponse :=
  match h.vectorstore with
  | none => { answer := notInitializedAnswer, sources := [] }
  | some vs =>
    let source_documents := vs.similarity_search query 5
    let answer := h.llm query source_documents
    { answer := answer
      sources :=
        if return_sources then source_documents.map sourceInfoOfDoc else [] }

/-- The `handle_query` body instrumented with an explicit counter of LLM
invocations: the counter is threaded through and incremented at the single
`qa_chain.invoke` call site. -/
def handle_query_counting (h : RAGQueryHandler) (query : String)
    (return_sources : Bool) (llm_calls : Nat) : QueryResponse × Nat :=
  match h.vectorstore with
  | none => ({ answer := notInitializedAnswer, sources := [] }, llm_calls)
  | some vs =>
    let source_documents := vs.similarity_search query 5
    let answer := h.llm query source_documents
    ({ answer := answer
       sources :=
         if return_sources then source_documents.map sourceInfoOfDoc else [] },
     llm_calls + 1)

/-- One entry of the `get_relevant_documents` result list. -/
structure RelevantDoc where
  content : List Char
  source_file : String
  file_type : String
  source_path : String
deriving DecidableEq

/-- Embedding of `RAGQueryHandler.get_relevant_documents`. -/
def get_relevant_documents (h : RAGQueryHandler) (query : String)
    (k : Nat := 3) : List RelevantDoc :=
  match h.vectorstore with
  | none => []
  | some vs =>
    (vs.similarity_search query k).map (fun doc =>
      { content := doc.page_content
        source_file := metaGetD doc.metadata "source_file" "不明"
        file_type := metaGetD doc.metadata "file_type" "不明"
        source_path := metaGetD doc.metadata "source_path" "" })

/-- One entry of the `search_by_keywords` result list. -/
structure KeywordResult where
  content : List Char
  metadata : Metadata
  keyword : String
deriving DecidableEq

/-- Embedding of `RAGQueryHandler.search_by_keywords`: one similarity search per keyword
in caller order; a result whose content hash was already seen is dropped,
otherwise it is appended tagged with the current keyword.  The Python `set`
of seen hashes is modelled as a list with membership. -/
def search_by_keywords (h : RAGQueryHandler) (keywords : List String)
    (k : Nat := 5) : List KeywordResult :=
  match h.vectorstore with
  | none => []
  | some vs =>
    (keywords.foldl
      (fun acc keyword =>
        (vs.similarity_search keyword k).foldl
          (fun acc2 doc =>
            let content_hash := h.pyhash doc.page_content
            if content_hash ∈ acc2.2 then acc2
            else
              (acc2.1 ++
                 [{ content := doc.page_content
                    metadata := doc.metadata
                    keyword := keyword }],
               content_hash :: acc2.2))
          acc)
      (([], []) : List KeywordResult × List Int)).1

/-! Entry-point startup behaviour (`main.py`, `demo.py`) -/

/-- The process environment: `os.getenv`. -/
abbrev Env := String → Option String

/-- Python truthiness test `not os.getenv(KEY)`: the variable is absent or
set to the empty string. -/
def falsy : Option String → Bool
  | none => true
  | some s => s == ""

/-- The externally visible actions the two entry points can take before and
during their run. -/
inductive EntryStep where
  | printKeyError
  | exitProgram (code : Nat)
  | printKeyWarning
  | initSystem (data_folder : String)
  | interactiveMode
  | useExistingIndex
  | buildIndex (data_folder : String)
  | buildFailed
  | runQuery (q : String)
  | searchSimilar (q : String)
deriving DecidableEq

/-- Python `os.getenv(key, default)`. -/
def getenvD (env : Env) (key dflt : String) : String :=
  (env key).getD dflt

/-- Action trace of `main()` in `main.py`: a falsy `OPENAI_API_KEY` prints
the error banner and exits with status 1; otherwise the system is
initialised on the data folder and the interactive menu starts. -/
def main_steps (env : Env) : List EntryStep :=
  if falsy (env "OPENAI_API_KEY") then
    [.printKeyError, .exitProgram 1]
  else
    [.initSystem (getenvD env "QUALITY_DATA_FOLDER" "./data"), .interactiveMode]

/-- The three sample queries hard-coded in `demo.py`. -/
def sample_queries : List String :=
  ["溶接不良の是正策を教えてください",
   "寸法不良を防ぐにはどうすればいいですか",
   "過去の品質問題で最も多い原因は何ですか"]

/-- Action trace of `demo()` in `demo.py`, parametrised by whether the
index directory exists and whether building it succeeds: build (or reuse)
the index, then run the sample queries and the similarity-search demo; a
failed build returns early. -/
def demo_steps (index_exists build_ok : Bool) : List EntryStep :=
  if index_exists then
    .useExistingIndex :: (sample_queries.map .runQuery ++ [.searchSimilar "溶接"])
  else if build_ok then
    .buildIndex "./data" :: (sample_queries.map .runQuery ++ [.searchSimilar "溶接"])
  else
    [.buildIndex "./data", .buildFailed]

/-- Action trace of the `__main__` block of `demo.py`: a falsy
`OPENAI_API_KEY` prints a warning, and `demo()` runs unconditionally. -/
def demo_main_steps (env : Env) (index_exists build_ok : Bool) : List EntryStep :=
  (if falsy (env "OPENAI_API_KEY") then [.printKeyWarning] else []) ++
    demo_steps index_exists build_ok

/-! Helper lemmas about the dict model -/

lemma find?_map_overwrite (m : Metadata) (k v : String) :
    (m.map (fun p => if p.1 == k then (k, v) else p)).find? (fun p => p.1 == k)
      = if m.any (fun p => p.1 == k) then some (k, v) else none := by
  induction m with
  | nil => simp
  | cons p rest ih =>
    rw [List.map_cons, List.any_cons]
    by_cases hp : p.1 = k
    · have hb : (p.1 == k) = true := beq_iff_eq.mpr hp
      rw [if_pos hb, List.find?_cons]
      simp [hb]
    · have hb : (p.1 == k) = false := beq_eq_false_iff_ne.mpr hp
      rw [if_neg (by rw [hb]; exact Bool.false_ne_true), List.find?_cons]
      simp only [hb, Bool.false_or]
      exact ih

lemma metaGetD_metaSet_self (m : Metadata) (k v d : String) :
    metaGetD (metaSet m k v) k d = v := by
  unfold metaGetD metaSet
  by_cases hA : m.any (fun p => p.1 == k)
  · rw [if_pos hA, find?_map_overwrite, if_pos hA]
  · rw [if_neg hA, List.find?_append]
    have hnone : m.find? (fun p => p.1 == k) = none := by
      rw [List.find?_eq_none]
      intro x hx
      exact fun hpx => hA (List.any_eq_true.mpr ⟨x, hx, hpx⟩)
    rw [hnone]
    simp [List.find?_cons]

lemma find?_map_overwrite_ne (m : Metadata) (k k' v : String) (hne : k' ≠ k) :
    (m.map (fun p => if p.1 == k' then (k', v) else p)).find? (fun p => p.1 == k)
      = m.find? (fun p => p.1 == k) := by
  induction m with
  | nil => simp
  | cons p rest ih =>
    rw [List.map_cons]
    by_cases hp : p.1 = k'
    · have hb1 : (p.1 == k') = true := beq_iff_eq.mpr hp
      have hb2 : ((k' : String) == k) = false := beq_eq_false_iff_ne.mpr hne
      have hb3 : (p.1 == k) = false := beq_eq_false_iff_ne.mpr (by rw [hp]; exact hne)
      rw [if_pos hb1, List.find?_cons, List.find?_cons]
      simp only [hb2, hb3]
      exact ih
    · have hb1 : (p.1 == k') = false := beq_eq_false_iff_ne.mpr hp
      rw [if_neg (by rw [hb1]; exact Bool.false_ne_true), List.find?_cons, List.find?_cons]
      by_cases hq : p.1 = k
      · have hbq : (p.1 == k) = true := beq_iff_eq.mpr hq
        simp only [hbq]
      · have hbq : (p.1 == k) = false := beq_eq_false_iff_ne.mpr hq
        simp only [hbq]
        exact ih

lemma metaGetD_metaSet_ne (m : Metadata) (k k' v d : String) (hne : k' ≠ k) :
    metaGetD (metaSet m k' v) k d = metaGetD m k d := by
  unfold metaGetD metaSet
  by_cases hA : m.any (fun p => p.1 == k')
  · rw [if_pos hA, find?_map_overwrite_ne m k k' v hne]
  · rw [if_neg hA, List.find?_append]
    have hb : ((k' : String) == k) = false := beq_eq_false_iff_ne.mpr hne
    simp [List.find?_cons, hb, Option.or_none]

lemma attach_meta_source_file (d : Doc) (f : PFile) (ext dflt : String) :
    metaGetD (attach_meta d f ext).metadata "source_file" dflt = f.name := by
  unfold attach_meta
  rw [metaGetD_metaSet_ne _ _ _ _ _ (by decide),
    metaGetD_metaSet_ne _ _ _ _ _ (by decide), metaGetD_metaSet_self]

lemma attach_meta_source_path (d : Doc) (f : PFile) (ext dflt : String) :
    metaGetD (attach_meta d f ext).metadata "source_path" dflt = f.path := by
  unfold attach_meta
  rw [metaGetD_metaSet_ne _ _ _ _ _ (by decide), metaGetD_metaSet_self]

lemma attach_meta_file_type (d : Doc) (f : PFile) (ext dflt : String) :
    metaGetD (attach_meta d f ext).metadata "file_type" dflt = ext := by
  unfold attach_meta
  rw [metaGetD_metaSet_self]

/-! C1: all four query operations short-circuit when no store is loaded -/

/-- C1: with `self.vectorstore is None`, `search_similar_cases`,
`get_relevant_documents` and `search_by_keywords` return the empty list and
`handle_query` returns the fixed placeholder answer with an empty `sources`
list, for every query, keyword list and `k`. -/
theorem uninitialized_queries_spec (h : RAGQueryHandler)
    (hv : h.vectorstore = none) (q q2 : String) (k k2 k3 : Nat)
    (keywords : List String) (rs : Bool) :
    search_similar_cases h q k = []
    ∧ get_relevant_documents h q2 k2 = []
    ∧ search_by_keywords h keywords k3 = []
    ∧ handle_query h q rs = { answer := notInitializedAnswer, sources := [] } := by
  refine ⟨?_, ?_, ?_, ?_⟩ <;>
    simp [search_similar_cases, get_relevant_documents, search_by_keywords,
      handle_query, hv]

def wNoneHandler : RAGQueryHandler :=
  { vectorstore := none, llm := fun _ _ => "", pyhash := fun _ => 0 }

/-- Witness for C1 at a concrete uninitialised handler. -/
theorem uninitialized_queries_spec_witness :
    search_similar_cases wNoneHandler "溶接" 5 = []
    ∧ get_relevant_documents wNoneHandler "寸法" 3 = []
    ∧ search_by_keywords wNoneHandler ["溶接", "塗装"] 5 = []
    ∧ handle_query wNoneHandler "溶接" true
        = { answer := notInitializedAnswer, sources := [] } :=
  uninitialized_queries_spec wNoneHandler rfl "溶接" "寸法" 5 3 5 ["溶接", "塗装"] true

/-! C7: answer synthesis always retrieves k = 5 and calls the LLM once -/

/-- C7: with a loaded store, `handle_query` builds its LLM context from
exactly the top-5 similarity result of the query (the retriever is always
constructed with `k = 5`; the method takes no `k` parameter), and the
instrumented run shows the LLM is invoked exactly once per query. -/
theorem handle_query_fixed_top5_spec (h : RAGQueryHandler) (vs : VectorStore)
    (hv : h.vectorstore = some vs) (q : String) (rs : Bool) (n : Nat) :
    handle_query_counting h q rs n = (handle_query h q rs, n + 1)
    ∧ (handle_query h q rs).answer = h.llm q (vs.similarity_search q 5)
    ∧ (handle_query h q rs).sources
        = (if rs then (vs.similarity_search q 5).map sourceInfoOfDoc else []) := by
  refine ⟨?_, ?_, ?_⟩ <;> simp [handle_query, handle_query_counting, hv]

def wDoc0 : Doc := { page_content := "abc".data, metadata := [] }

def wVS : VectorStore :=
  { similarity_search := fun _ _ => [wDoc0]
    similarity_search_with_score := fun _ _ => [(wDoc0, 0)] }

def wHandler : RAGQueryHandler :=
  { vectorstore := some wVS, llm := fun _ _ => "回答", pyhash := fun _ => 0 }

/-- Witness for C7 at a concrete loaded handler. -/
theorem handle_query_fixed_top5_spec_witness :
    handle_query_counting wHandler "質問" true 0 = (handle_query wHandler "質問" true, 0 + 1)
    ∧ (handle_query wHandler "質問" true).answer
        = wHandler.llm "質問" (wVS.similarity_search "質問" 5)
    ∧ (handle_query wHandler "質問" true).sources
        = (if true then (wVS.similarity_search "質問" 5).map sourceInfoOfDoc else []) :=
  handle_query_fixed_top5_spec wHandler wVS rfl "質問" true 0

/-! C2: building from empty input is a hard validation failure -/

/-- C2: `build_vectorstore` on an empty document list raises `ValueError`
before any index is constructed, `build_vectorstore_from_folder` raises
`ValueError` when the folder yields no documents, and on any non-empty
input the empty-input check does not fire. -/
theorem build_vectorstore_empty_input_spec :
    build_vectorstore [] = .error "ドキュメントが空です。ベクトルストアを構築できません。"
    ∧ (∀ documents : List Doc, documents ≠ [] →
        build_vectorstore documents = .ok (split_documents documents))
    ∧ (∀ (fs : FileSystem) (folder : String),
        load_quality_documents fs folder = [] →
        build_vectorstore_from_folder fs folder =
          .error ("フォルダ内にドキュメントが見つかりませんでした: " ++ folder))
    ∧ (∀ (fs : FileSystem) (folder : String),
        load_quality_documents fs folder ≠ [] →
        build_vectorstore_from_folder fs folder =
          .ok (split_documents (load_quality_documents fs folder))) := by
  refine ⟨rfl, ?_, ?_, ?_⟩
  · intro documents hne
    have hE : documents.isEmpty = false := by
      rw [List.isEmpty_eq_false_iff_exists_mem]
      cases documents with
      | nil => exact absurd rfl hne
      | cons d rest => exact ⟨d, List.mem_cons_self d rest⟩
    unfold build_vectorstore
    rw [hE]
    simp
  · intro fs folder h0
    unfold build_vectorstore_from_folder
    rw [h0]
    simp
  · intro fs folder hne
    have hE : (load_quality_documents fs folder).isEmpty = false := by
      rw [List.isEmpty_eq_false_iff_exists_mem]
      cases hL : load_quality_documents fs folder with
      | nil => exact absurd hL hne
      | cons d rest => exact ⟨d, List.mem_cons_self d rest⟩
    unfold build_vectorstore_from_folder build_vectorstore
    simp [hE]

def wFile : PFile :=
  { name := "weld.txt", path := "./data/weld.txt", parse := .ok [wDoc0] }

def wErrFile : PFile :=
  { name := "broken.pdf", path := "./data/broken.pdf", parse := .error "parse error" }

def wBadFile : PFile :=
  { name := "img.png", path := "./data/img.png", parse := .ok [wDoc0] }

def wFS : FileSystem :=
  fun p => if p = "./data" then some [wFile, wErrFile, wBadFile] else none

def wFSEmpty : FileSystem := fun _ => some []

/-- Witness for C2 at concrete inputs: a non-empty document list builds, an
empty folder aborts with the `ValueError`, a non-empty folder builds. -/
theorem build_vectorstore_empty_input_spec_witness :
    build_vectorstore [wDoc0] = .ok (split_documents [wDoc0])
    ∧ build_vectorstore_from_folder wFSEmpty "./data"
        = .error ("フォルダ内にドキュメントが見つかりませんでした: " ++ "./data")
    ∧ build_vectorstore_from_folder wFS "./data"
        = .ok (split_documents (load_quality_documents wFS "./data")) :=
  ⟨build_vectorstore_empty_input_spec.2.1 [wDoc0] (by decide),
   build_vectorstore_empty_input_spec.2.2.1 wFSEmpty "./data" (by decide),
   build_vectorstore_empty_input_spec.2.2.2 wFS "./data" (by decide)⟩

/-! C6: the source previews returned by handle_query -/

def cDoc : Doc :=
  { page_content := "hello".data
    metadata := [("source_file", "w.txt"), ("file_type", ".txt")] }

def cVS : VectorStore :=
  { similarity_search := fun _ _ => [cDoc]
    similarity_search_with_score := fun _ _ => [] }

def cHandler : RAGQueryHandler :=
  { vectorstore := some cVS, llm := fun _ _ => "回答", pyhash := fun _ => 0 }

/-- Counterexample to C6 as stated: at this concrete handler the single
source's `content_preview` is the chunk content with `"..."` appended, which
differs from the first 200 characters of the content. -/
theorem content_preview_counterexample :
    ((handle_query cHandler "質問" true).sources.map (fun s => s.content_preview))
      = ["hello...".data]
    ∧ "hello...".data ≠ ("hello".data).take 200 := by
  constructor
  · rfl
  · decide

/-- C6 (amended): each returned source carries the chunk's filename and
file type from its metadata, and a `content_preview` equal to the first 200
characters of the chunk's content with the literal `"..."` appended. -/
theorem handle_query_sources_format_spec (h : RAGQueryHandler)
    (vs : VectorStore) (hv : h.vectorstore = some vs) (q : String) :
    (handle_query h q true).sources
      = (vs.similarity_search q 5).map (fun doc =>
          { file := metaGetD doc.metadata "source_file" "不明"
            type := metaGetD doc.metadata "file_type" "不明"
            content_preview := doc.page_content.take 200 ++ "...".data }) := by
  simp [handle_query, hv, sourceInfoOfDoc]

/-- Witness for the amended C6 at a concrete handler. -/
theorem handle_query_sources_format_spec_witness :
    (handle_query cHandler "質問" true).sources
      = (cVS.similarity_search "質問" 5).map (fun doc =>
          { file := metaGetD doc.metadata "source_file" "不明"
            type := metaGetD doc.metadata "file_type" "不明"
            content_preview := doc.page_content.take 200 ++ "...".data }) :=
  handle_query_sources_format_spec cHandler cVS rfl "質問"

/-! C9: startup behaviour when OPENAI_API_KEY is absent -/

def env0 : Env := fun _ => none

/-- Counterexample to C9 as stated: with no `OPENAI_API_KEY` in the
environment, the demo entry point does not exit — it prints a warning and
runs the full demo, querying the handler. -/
theorem api_key_demo_counterexample :
    falsy (env0 "OPENAI_API_KEY") = true
    ∧ demo_main_steps env0 true true
        = [.printKeyWarning, .useExistingIndex,
           .runQuery "溶接不良の是正策を教えてください",
           .runQuery "寸法不良を防ぐにはどうすればいいですか",
           .runQuery "過去の品質問題で最も多い原因は何ですか",
           .searchSimilar "溶接"]
    ∧ EntryStep.exitProgram 1 ∉ demo_main_steps env0 true true := by
  refine ⟨rfl, rfl, ?_⟩
  decide

/-- C9 (amended): a falsy `OPENAI_API_KEY` makes `main.py` print the error
banner and exit with status 1 before any indexing or querying, while
`demo.py` merely prints a warning and proceeds to run the demo exactly as
it would with the key set. -/
theorem api_key_startup_spec (env : Env)
    (hk : falsy (env "OPENAI_API_KEY") = true) (ie bo : Bool) :
    main_steps env = [.printKeyError, .exitProgram 1]
    ∧ (∀ folder, EntryStep.initSystem folder ∉ main_steps env)
    ∧ EntryStep.interactiveMode ∉ main_steps env
    ∧ demo_main_steps env ie bo = .printKeyWarning :: demo_steps ie bo := by
  refine ⟨?_, ?_, ?_, ?_⟩ <;> simp [main_steps, demo_main_steps, hk]

/-- Witness for the amended C9 at the empty environment. -/
theorem api_key_startup_spec_witness :
    main_steps env0 = [.printKeyError, .exitProgram 1]
    ∧ (∀ folder, EntryStep.initSystem folder ∉ main_steps env0)
    ∧ EntryStep.interactiveMode ∉ main_steps env0
    ∧ demo_main_steps env0 false true = .printKeyWarning :: demo_steps false true :=
  api_key_startup_spec env0 rfl false true

/-! C8: contract of load_all_documents -/

lemma load_foldl_eq (files : List PFile) (acc : List Doc) :
    files.foldl
      (fun all_documents file =>
        let ext := file_ext_of file.name
        if ext ∈ supported_extensions then
          match file.parse with
          | .ok docs => all_documents ++ docs.map (fun d => attach_meta d file ext)
          | .error _ => all_documents
        else all_documents)
      acc
    = acc ++ (files.map fileDocs).flatten := by
  induction files generalizing acc with
  | nil => simp
  | cons f rest ih =>
    rw [List.foldl_cons, List.map_cons, List.flatten_cons, ih]
    by_cases hs : file_ext_of f.name ∈ supported_extensions
    · cases hp : f.parse with
      | ok docs => simp [fileDocs, hs, hp]
      | error e => simp [fileDocs, hs, hp]
    · simp [fileDocs, hs]

lemma load_all_documents_none (fs : FileSystem) (folder : String)
    (hfs : fs folder = none) : load_all_documents fs folder = [] := by
  unfold load_all_documents
  rw [hfs]

lemma load_all_documents_some (fs : FileSystem) (folder : String)
    (files : List PFile) (hfs : fs folder = some files) :
    load_all_documents fs folder = (files.map fileDocs).flatten := by
  unfold load_all_documents
  rw [hfs]
  dsimp only
  rw [load_foldl_eq, List.nil_append]

/-- C8: `load_all_documents` returns exactly the documents parsed from
files with supported extensions, enriched with `source_file`, `source_path`
and `file_type` metadata; unsupported files contribute nothing, a parse
failure on one file does not abort the rest, and a missing folder, empty
folder or all-failed batch yields the empty list. -/
theorem load_all_documents_spec :
    (∀ (fs : FileSystem) (folder : String), fs folder = none →
      load_all_documents fs folder = [])
    ∧ (∀ (fs : FileSystem) (folder : String) (files : List PFile),
        fs folder = some files →
        load_all_documents fs folder = (files.map fileDocs).flatten)
    ∧ (∀ (fs : FileSystem) (folder : String) (files : List PFile) (d : Doc),
        fs folder = some files → d ∈ load_all_documents fs folder →
        ∃ f ∈ files, file_ext_of f.name ∈ supported_extensions ∧
          ∃ docs, f.parse = .ok docs ∧
            ∃ d0 ∈ docs, d = attach_meta d0 f (file_ext_of f.name) ∧
              metaGetD d.metadata "source_file" "" = f.name ∧
              metaGetD d.metadata "source_path" "" = f.path ∧
              metaGetD d.metadata "file_type" "" = file_ext_of f.name)
    ∧ (∀ (fs : FileSystem) (folder : String) (files : List PFile),
        fs folder = some files →
        (∀ f ∈ files, file_ext_of f.name ∉ supported_extensions ∨
          ∃ e, f.parse = .error e) →
        load_all_documents fs folder = []) := by
  refine ⟨load_all_documents_none, load_all_documents_some, ?_, ?_⟩
  · intro fs folder files d hfs hd
    rw [load_all_documents_some fs folder files hfs, List.mem_flatten] at hd
    obtain ⟨l, hl, hdl⟩ := hd
    rw [List.mem_map] at hl
    obtain ⟨f, hf, rfl⟩ := hl
    refine ⟨f, hf, ?_⟩
    unfold fileDocs at hdl
    by_cases hs : file_ext_of f.name ∈ supported_extensions
    · refine ⟨hs, ?_⟩
      cases hp : f.parse with
      | ok docs =>
        rw [hp] at hdl
        simp only [hs, if_true] at hdl
        rw [List.mem_map] at hdl
        obtain ⟨d0, hd0, rfl⟩ := hdl
        exact ⟨docs, rfl, d0, hd0, rfl,
          attach_meta_source_file d0 f _ _,
          attach_meta_source_path d0 f _ _,
          attach_meta_file_type d0 f _ _⟩
      | error e =>
        rw [hp] at hdl
        simp [hs] at hdl
    · simp [hs] at hdl
  · intro fs folder files hfs hall
    rw [load_all_documents_some fs folder files hfs, List.flatten_eq_nil_iff]
    intro l hl
    rw [List.mem_map] at hl
    obtain ⟨f, hf, rfl⟩ := hl
    rcases hall f hf with hs | ⟨e, he⟩
    · simp [fileDocs, hs]
    · simp [fileDocs, he]

/-- Witness for C8 at a concrete filesystem: a missing folder yields `[]`,
the characterisation holds on a concrete file list, the document loaded
from the supported file carries the right metadata, and a batch consisting
of a failing file and an unsupported file yields `[]`. -/
theorem load_all_documents_spec_witness :
    load_all_documents wFS "./missing" = []
    ∧ load_all_documents wFS "./data" = ([wFile, wErrFile, wBadFile].map fileDocs).flatten
    ∧ (∃ f ∈ [wFile, wErrFile, wBadFile],
        file_ext_of f.name ∈ supported_extensions ∧
        ∃ docs, f.parse = .ok docs ∧
          ∃ d0 ∈ docs, attach_meta wDoc0 wFile ".txt" = attach_meta d0 f (file_ext_of f.name) ∧
            metaGetD (attach_meta wDoc0 wFile ".txt").metadata "source_file" "" = f.name ∧
            metaGetD (attach_meta wDoc0 wFile ".txt").metadata "source_path" "" = f.path ∧
            metaGetD (attach_meta wDoc0 wFile ".txt").metadata "file_type" "" = file_ext_of f.name)
    ∧ load_all_documents (fun _ => some [wErrFile, wBadFile]) "./data" = [] :=
  ⟨load_all_documents_spec.1 wFS "./missing" rfl,
   load_all_documents_spec.2.1 wFS "./data" [wFile, wErrFile, wBadFile] rfl,
   load_all_documents_spec.2.2.1 wFS "./data" [wFile, wErrFile, wBadFile]
     (attach_meta wDoc0 wFile ".txt") rfl (by decide),
   load_all_documents_spec.2.2.2 (fun _ => some [wErrFile, wBadFile]) "./data"
     [wErrFile, wBadFile] rfl
     (by
       intro f hf
       rcases List.mem_cons.mp hf with rfl | hf2
       · exact Or.inr ⟨"parse error", rfl⟩
       · rw [List.mem_singleton] at hf2
         subst hf2
         exact Or.inl (by decide))⟩

/-! C10: extension matching is case-insensitive -/

/-- C10: the loader lowercases the extension before checking membership in
the supported set — a file whose extension differs only in case from a
supported one is loaded, with `file_type` equal to the lowercased
extension — and `load_documents_by_type` compares the file's lowercased
extension against the lowercased requested type. -/
theorem loader_case_insensitive_spec :
    (∀ name : String, file_ext_of name = lowerStr (rawExtOf name))
    ∧ (∀ (fs : FileSystem) (folder : String) (files : List PFile) (f : PFile)
        (docs : List Doc) (d0 : Doc),
        fs folder = some files → f ∈ files →
        lowerStr (rawExtOf f.name) ∈ supported_extensions →
        f.parse = .ok docs → d0 ∈ docs →
        attach_meta d0 f (file_ext_of f.name) ∈ load_all_documents fs folder ∧
        metaGetD (attach_meta d0 f (file_ext_of f.name)).metadata "file_type" ""
          = lowerStr (rawExtOf f.name))
    ∧ (∀ (fs : FileSystem) (folder : String) (ty1 ty2 : String),
        lowerStr ty1 = lowerStr ty2 →
        load_documents_by_type fs folder ty1 = load_documents_by_type fs folder ty2) := by
  have hlow : ∀ name : String, file_ext_of name = lowerStr (rawExtOf name) := by
    intro name
    rfl
  refine ⟨hlow, ?_, ?_⟩
  · intro fs folder files f docs d0 hfs hf hsupp hp hd0
    have hs : file_ext_of f.name ∈ supported_extensions := by
      rw [hlow f.name]; exact hsupp
    constructor
    · rw [load_all_documents_some fs folder files hfs, List.mem_flatten]
      refine ⟨fileDocs f, List.mem_map.mpr ⟨f, hf, rfl⟩, ?_⟩
      unfold fileDocs
      rw [hp]
      simp only [hs, if_true]
      exact List.mem_map.mpr ⟨d0, hd0, rfl⟩
    · rw [attach_meta_file_type, hlow f.name]
  · intro fs folder ty1 ty2 hty
    unfold load_documents_by_type
    rw [hty]

def wUpFile : PFile :=
  { name := "report.TXT", path := "./data/report.TXT", parse := .ok [wDoc0] }

def wFSUp : FileSystem := fun _ => some [wUpFile]

/-- Witness for C10: a file named `report.TXT` is loaded and tagged with
file type `".txt"`, and requesting type `".PDF"` is the same as requesting
`".pdf"`. -/
theorem loader_case_insensitive_spec_witness :
    file_ext_of "report.TXT" = lowerStr (rawExtOf "report.TXT")
    ∧ (attach_meta wDoc0 wUpFile (file_ext_of "report.TXT")
         ∈ load_all_documents wFSUp "./data" ∧
       metaGetD (attach_meta wDoc0 wUpFile (file_ext_of "report.TXT")).metadata
           "file_type" "" = lowerStr (rawExtOf "report.TXT"))
    ∧ load_documents_by_type wFSUp "./data" ".PDF"
        = load_documents_by_type wFSUp "./data" ".pdf" :=
  ⟨loader_case_insensitive_spec.1 "report.TXT",
   loader_case_insensitive_spec.2.1 wFSUp "./data" [wUpFile] wUpFile [wDoc0] wDoc0
     rfl (by decide) (by decide) rfl (by decide),
   loader_case_insensitive_spec.2.2 wFSUp "./data" ".PDF" ".pdf" (by decide)⟩

/-! C4 and C5: chunker geometry and reconstruction -/

lemma splitTextAux_le (fuel : Nat) (t : List Char) (h : t.length ≤ chunk_size) :
    splitTextAux (fuel + 1) t = [t] := by
  unfold splitTextAux
  rw [if_pos h]

lemma splitTextAux_gt (fuel : Nat) (t : List Char) (h : chunk_size < t.length) :
    splitTextAux (fuel + 1) t
      = t.take chunk_size :: splitTextAux fuel (t.drop (chunk_size - chunk_overlap)) := by
  conv_lhs => rw [splitTextAux]
  rw [if_neg (Nat.not_le.mpr h)]

lemma drop_length_lt (t : List Char) (h : chunk_size < t.length) (n : Nat)
    (hf : t.length < n + 1) :
    (t.drop (chunk_size - chunk_overlap)).length < n := by
  rw [List.length_drop]
  have h1 : chunk_size = 1000 := rfl
  have h2 : chunk_overlap = 200 := rfl
  omega

lemma splitTextAux_fuel (fuel1 fuel2 : Nat) (t : List Char)
    (h1 : t.length < fuel1) (h2 : t.length < fuel2) :
    splitTextAux fuel1 t = splitTextAux fuel2 t := by
  induction fuel1 generalizing fuel2 t with
  | zero => omega
  | succ n ih =>
    cases fuel2 with
    | zero => omega
    | succ m =>
      by_cases hle : t.length ≤ chunk_size
      · rw [splitTextAux_le n t hle, splitTextAux_le m t hle]
      · have hgt := Nat.not_le.mp hle
        rw [splitTextAux_gt n t hgt, splitTextAux_gt m t hgt,
          ih _ _ (drop_length_lt t hgt n h1) (drop_length_lt t hgt m h2)]

lemma splitText_eq_aux (fuel : Nat) (t : List Char) (h : t.length < fuel) :
    splitText t = splitTextAux fuel t :=
  splitTextAux_fuel (t.length + 1) fuel t (Nat.lt_succ_self _) h

lemma splitText_of_le (t : List Char) (h : t.length ≤ chunk_size) :
    splitText t = [t] := by
  unfold splitText
  exact splitTextAux_le _ _ h

lemma splitText_of_gt (t : List Char) (h : chunk_size < t.length) :
    splitText t
      = t.take chunk_size :: splitText (t.drop (chunk_size - chunk_overlap)) := by
  rw [splitText_eq_aux (t.length + 1) t (Nat.lt_succ_self _), splitTextAux_gt _ _ h,
    splitText_eq_aux t.length (t.drop (chunk_size - chunk_overlap))
      (drop_length_lt t h t.length (Nat.lt_succ_self _))]

lemma splitTextAux_sizes (fuel : Nat) :
    ∀ t : List Char, t.length < fuel →
      ∀ c ∈ splitTextAux fuel t, c.length ≤ chunk_size := by
  induction fuel with
  | zero => intro t h; omega
  | succ n ih =>
    intro t h c hc
    by_cases hle : t.length ≤ chunk_size
    · rw [splitTextAux_le n t hle, List.mem_singleton] at hc
      subst hc
      exact hle
    · have hgt := Nat.not_le.mp hle
      rw [splitTextAux_gt n t hgt] at hc
      rcases List.mem_cons.mp hc with rfl | hc2
      · rw [List.length_take]
        exact inf_le_left
      · exact ih _ (drop_length_lt t hgt n h) c hc2

lemma splitText_sizes (t : List Char) :
    ∀ c ∈ splitText t, c.length ≤ chunk_size := by
  unfold splitText
  exact splitTextAux_sizes (t.length + 1) t (Nat.lt_succ_self _)

/-- The exact-overlap relation between adjacent chunks: every chunk but the
last is full, the next chunk is at least `chunk_overlap` long, and the
trailing `chunk_overlap` characters of the first equal the leading
`chunk_overlap` characters of the second. -/
def chunkAdjacent (a b : List Char) : Prop :=
  a.length = chunk_size ∧ chunk_overlap ≤ b.length ∧
    a.drop (chunk_size - chunk_overlap) = b.take chunk_overlap

lemma splitTextAux_head (fuel : Nat) (s : List Char) :
    ∃ rest, splitTextAux (fuel + 1) s = s.take chunk_size :: rest := by
  by_cases hle : s.length ≤ chunk_size
  · rw [splitTextAux_le fuel s hle, List.take_of_length_le hle]
    exact ⟨[], rfl⟩
  · exact ⟨_, splitTextAux_gt fuel s (Nat.not_le.mp hle)⟩

lemma splitTextAux_chain (fuel : Nat) :
    ∀ t : List Char, t.length < fuel →
      List.Chain' chunkAdjacent (splitTextAux fuel t) := by
  induction fuel with
  | zero => intro t h; omega
  | succ n ih =>
    intro t h
    by_cases hle : t.length ≤ chunk_size
    · rw [splitTextAux_le n t hle]
      exact List.chain'_singleton t
    · have hgt := Nat.not_le.mp hle
      rw [splitTextAux_gt n t hgt]
      have hslen : (t.drop (chunk_size - chunk_overlap)).length < n :=
        drop_length_lt t hgt n h
      have htail := ih _ hslen
      cases n with
      | zero => omega
      | succ m =>
        obtain ⟨rest, hrest⟩ := splitTextAux_head m (t.drop (chunk_size - chunk_overlap))
        rw [List.chain'_cons']
        refine ⟨?_, htail⟩
        intro y hy
        rw [hrest] at hy
        simp only [List.head?_cons, Option.mem_def, Option.some.injEq] at hy
        subst hy
        have e1 : chunk_size = 1000 := rfl
        have e2 : chunk_overlap = 200 := rfl
        refine ⟨?_, ?_, ?_⟩
        · rw [List.length_take]
          exact inf_eq_left.mpr hgt.le
        · rw [List.length_take, List.length_drop, le_inf_iff]
          omega
        · rw [List.drop_take, List.take_take]
          have e3 : chunk_size - (chunk_size - chunk_overlap) = chunk_overlap := by decide
          have e4 : chunk_overlap ⊓ chunk_size = chunk_overlap := by decide
          rw [e3, e4]

lemma splitText_chain (t : List Char) :
    List.Chain' chunkAdjacent (splitText t) := by
  unfold splitText
  exact splitTextAux_chain (t.length + 1) t (Nat.lt_succ_self _)

lemma reconstruct_splitTextAux (fuel : Nat) :
    ∀ t : List Char, t.length < fuel →
      reconstruct (splitTextAux fuel t) = t := by
  induction fuel with
  | zero => intro t h; omega
  | succ n ih =>
    intro t h
    by_cases hle : t.length ≤ chunk_size
    · rw [splitTextAux_le n t hle]
      simp [reconstruct]
    · have hgt := Nat.not_le.mp hle
      rw [splitTextAux_gt n t hgt]
      have hslen : (t.drop (chunk_size - chunk_overlap)).length < n :=
        drop_length_lt t hgt n h
      have hrec := ih _ hslen
      cases n with
      | zero => omega
      | succ m =>
        obtain ⟨rest, hrest⟩ := splitTextAux_head m (t.drop (chunk_size - chunk_overlap))
        rw [hrest] at hrec ⊢
        simp only [reconstruct, List.map_cons, List.flatten_cons] at hrec ⊢
        have e1 : chunk_size = 1000 := rfl
        have e2 : chunk_overlap = 200 := rfl
        have hlen200 :
            chunk_overlap ≤ ((t.drop (chunk_size - chunk_overlap)).take chunk_size).length := by
          rw [List.length_take, List.length_drop, le_inf_iff]
          omega
        rw [← List.drop_append_of_le_length hlen200, hrec, List.drop_drop]
        have e3 : chunk_size - chunk_overlap + chunk_overlap = chunk_size := by decide
        rw [e3, List.take_append_drop]

lemma reconstruct_splitText (t : List Char) :
    reconstruct (splitText t) = t := by
  unfold splitText
  exact reconstruct_splitTextAux (t.length + 1) t (Nat.lt_succ_self _)

/-- C4 (settled against the spec-modelled splitter): every chunk produced
by `split_documents` is at most `chunk_size` long and carries its parent
document's metadata unchanged; adjacent chunks of a text overlap by exactly
`chunk_overlap` characters; a text shorter than `chunk_size` yields exactly
one chunk. -/
theorem chunker_spec :
    (∀ (docs : List Doc) (c : Doc), c ∈ split_documents docs →
      c.page_content.length ≤ chunk_size ∧
      ∃ d ∈ docs, c.metadata = d.metadata ∧ c.page_content ∈ splitText d.page_content)
    ∧ (∀ t : List Char, List.Chain' chunkAdjacent (splitText t))
    ∧ (∀ t : List Char, t.length < chunk_size → splitText t = [t]) := by
  refine ⟨?_, splitText_chain, ?_⟩
  · intro docs c hc
    unfold split_documents at hc
    rw [List.mem_flatten] at hc
    obtain ⟨l, hl, hcl⟩ := hc
    rw [List.mem_map] at hl
    obtain ⟨d, hd, rfl⟩ := hl
    rw [List.mem_map] at hcl
    obtain ⟨txt, htxt, rfl⟩ := hcl
    exact ⟨splitText_sizes d.page_content txt htxt, d, hd, rfl, htxt⟩
  · intro t ht
    exact splitText_of_le t ht.le

def wShortDoc : Doc :=
  { page_content := "abc".data, metadata := [("source_file", "a.txt")] }

/-- Witness for C4: a three-character document splits into the single chunk
equal to itself, with metadata preserved. -/
theorem chunker_spec_witness :
    (wShortDoc.page_content.length ≤ chunk_size ∧
      ∃ d ∈ [wShortDoc], wShortDoc.metadata = d.metadata ∧
        wShortDoc.page_content ∈ splitText d.page_content)
    ∧ splitText "abc".data = ["abc".data] :=
  ⟨chunker_spec.1 [wShortDoc] wShortDoc (by decide),
   chunker_spec.2.2 "abc".data (by decide)⟩

/-- C5 (settled against the spec-modelled splitter): the chunks of a
document are exactly `splitText` of its text, and concatenating them after
removing the `chunk_overlap`-character margin at the head of every chunk
but the first reconstructs the document's text exactly. -/
theorem chunker_reconstruct_spec (d : Doc) :
    (split_documents [d]).map (fun c => c.page_content) = splitText d.page_content
    ∧ reconstruct ((split_documents [d]).map (fun c => c.page_content))
        = d.page_content := by
  have hmap :
      (split_documents [d]).map (fun c => c.page_content) = splitText d.page_content := by
    unfold split_documents
    rw [List.map_cons, List.map_nil, List.flatten_cons, List.flatten_nil,
      List.append_nil, List.map_map]
    have hid : ((fun c => c.page_content) ∘ fun c => Doc.mk c d.metadata)
        = fun c : List Char => c := rfl
    rw [hid]
    exact List.map_id _
  exact ⟨hmap, by rw [hmap]; exact reconstruct_splitText d.page_content⟩

/-! C3: multi-keyword search ordering, tagging and deduplication -/

/-- The result record `search_by_keywords` appends for a doc surfaced by a
keyword. -/
def mkKR (keyword : String) (doc : Doc) : KeywordResult :=
  { content := doc.page_content, metadata := doc.metadata, keyword := keyword }

/-- The keyword-tagged concatenation of the per-keyword similarity results,
in caller-supplied keyword order and per-keyword similarity order. -/
def tagDocs (keywords : List String) (search : String → Nat → List Doc)
    (k : Nat) : List (String × Doc) :=
  (keywords.map (fun kw => (search kw k).map (fun d => (kw, d)))).flatten

/-- First-seen-wins deduplication by content hash over a tagged list,
threading the set of seen hashes. -/
def dedupTagged (ph : List Char → Int) :
    List (String × Doc) → List Int → List KeywordResult
  | [], _ => []
  | (kw, doc) :: rest, seen =>
    if ph doc.page_content ∈ seen then dedupTagged ph rest seen
    else mkKR kw doc :: dedupTagged ph rest (ph doc.page_content :: seen)

/-- The seen-hash set after processing a tagged list. -/
def seenAfter (ph : List Char → Int) :
    List (String × Doc) → List Int → List Int
  | [], seen => seen
  | (_, doc) :: rest, seen =>
    if ph doc.page_content ∈ seen then seenAfter ph rest seen
    else seenAfter ph rest (ph doc.page_content :: seen)

lemma dedupTagged_cons (ph : List Char → Int) (kw : String) (doc : Doc)
    (rest : List (String × Doc)) (seen : List Int) :
    dedupTagged ph ((kw, doc) :: rest) seen
      = if ph doc.page_content ∈ seen then dedupTagged ph rest seen
        else mkKR kw doc :: dedupTagged ph rest (ph doc.page_content :: seen) := rfl

lemma seenAfter_cons (ph : List Char → Int) (kw : String) (doc : Doc)
    (rest : List (String × Doc)) (seen : List Int) :
    seenAfter ph ((kw, doc) :: rest) seen
      = if ph doc.page_content ∈ seen then seenAfter ph rest seen
        else seenAfter ph rest (ph doc.page_content :: seen) := rfl

lemma inner_foldl_eq (ph : List Char → Int) (kw : String) (docs : List Doc)
    (res : List KeywordResult) (seen : List Int) :
    docs.foldl
      (fun acc2 doc =>
        let content_hash := ph doc.page_content
        if content_hash ∈ acc2.2 then acc2
        else
          (acc2.1 ++
             [{ content := doc.page_content
                metadata := doc.metadata
                keyword := kw }],
           content_hash :: acc2.2))
      (res, seen)
    = (res ++ dedupTagged ph (docs.map (fun d => (kw, d))) seen,
       seenAfter ph (docs.map (fun d => (kw, d))) seen) := by
  induction docs generalizing res seen with
  | nil => simp [dedupTagged, seenAfter]
  | cons doc rest ih =>
    rw [List.foldl_cons, List.map_cons, dedupTagged_cons, seenAfter_cons]
    dsimp only
    by_cases hm : ph doc.page_content ∈ seen
    · rw [if_pos hm, if_pos hm, if_pos hm, ih]
    · rw [if_neg hm, if_neg hm, if_neg hm, ih]
      simp only [mkKR]
      conv_rhs => rw [List.append_cons]

lemma seenAfter_append (ph : List Char → Int) (l1 l2 : List (String × Doc)) :
    ∀ seen, seenAfter ph (l1 ++ l2) seen = seenAfter ph l2 (seenAfter ph l1 seen) := by
  induction l1 with
  | nil => intro seen; rfl
  | cons p rest ih =>
    intro seen
    obtain ⟨kw, doc⟩ := p
    rw [List.cons_append, seenAfter_cons, seenAfter_cons]
    by_cases hm : ph doc.page_content ∈ seen
    · rw [if_pos hm, if_pos hm, ih]
    · rw [if_neg hm, if_neg hm, ih]

lemma dedupTagged_append (ph : List Char → Int) (l1 l2 : List (String × Doc)) :
    ∀ seen, dedupTagged ph (l1 ++ l2) seen
      = dedupTagged ph l1 seen ++ dedupTagged ph l2 (seenAfter ph l1 seen) := by
  induction l1 with
  | nil => intro seen; rfl
  | cons p rest ih =>
    intro seen
    obtain ⟨kw, doc⟩ := p
    rw [List.cons_append, dedupTagged_cons, dedupTagged_cons, seenAfter_cons]
    by_cases hm : ph doc.page_content ∈ seen
    · rw [if_pos hm, if_pos hm, if_pos hm, ih]
    · rw [if_neg hm, if_neg hm, if_neg hm, ih, List.cons_append]

lemma outer_foldl_eq (ph : List Char → Int) (search : String → Nat → List Doc)
    (k : Nat) (keywords : List String) (res : List KeywordResult) (seen : List Int) :
    keywords.foldl
      (fun acc keyword =>
        (search keyword k).foldl
          (fun acc2 doc =>
            let content_hash := ph doc.page_content
            if content_hash ∈ acc2.2 then acc2
            else
              (acc2.1 ++
                 [{ content := doc.page_content
                    metadata := doc.metadata
                    keyword := keyword }],
               content_hash :: acc2.2))
          acc)
      (res, seen)
    = (res ++ dedupTagged ph (tagDocs keywords search k) seen,
       seenAfter ph (tagDocs keywords search k) seen) := by
  induction keywords generalizing res seen with
  | nil => simp [tagDocs, dedupTagged, seenAfter]
  | cons kw rest ih =>
    rw [List.foldl_cons]
    dsimp only
    rw [inner_foldl_eq, ih]
    have htag : tagDocs (kw :: rest) search k
        = (search kw k).map (fun d => (kw, d)) ++ tagDocs rest search k := by
      unfold tagDocs
      rw [List.map_cons, List.flatten_cons]
    rw [htag, dedupTagged_append, seenAfter_append, List.append_assoc]

lemma search_by_keywords_eq (h : RAGQueryHandler) (vs : VectorStore)
    (hv : h.vectorstore = some vs) (keywords : List String) (k : Nat) :
    search_by_keywords h keywords k
      = dedupTagged h.pyhash (tagDocs keywords vs.similarity_search k) [] := by
  unfold search_by_keywords
  rw [hv]
  dsimp only
  rw [outer_foldl_eq, List.nil_append]

lemma dedupTagged_sublist (ph : List Char → Int) (l : List (String × Doc)) :
    ∀ seen, List.Sublist (dedupTagged ph l seen) (l.map (fun p => mkKR p.1 p.2)) := by
  induction l with
  | nil => intro seen; exact List.Sublist.refl _
  | cons p rest ih =>
    intro seen
    obtain ⟨kw, doc⟩ := p
    rw [dedupTagged_cons, List.map_cons]
    by_cases hm : ph doc.page_content ∈ seen
    · rw [if_pos hm]
      exact (ih seen).cons _
    · rw [if_neg hm]
      exact (ih _).cons₂ _

lemma dedupTagged_not_seen (ph : List Char → Int) (l : List (String × Doc)) :
    ∀ seen e, e ∈ dedupTagged ph l seen → ph e.content ∉ seen := by
  induction l with
  | nil =>
    intro seen e he
    simp [dedupTagged] at he
  | cons p rest ih =>
    intro seen e he
    obtain ⟨kw, doc⟩ := p
    rw [dedupTagged_cons] at he
    by_cases hm : ph doc.page_content ∈ seen
    · rw [if_pos hm] at he
      exact ih seen e he
    · rw [if_neg hm] at he
      rcases List.mem_cons.mp he with rfl | he2
      · exact hm
      · intro hin
        exact ih _ e he2 (List.mem_cons_of_mem _ hin)

lemma dedupTagged_pairwise (ph : List Char → Int) (l : List (String × Doc)) :
    ∀ seen, (dedupTagged ph l seen).Pairwise (fun a b => a.content ≠ b.content) := by
  induction l with
  | nil => intro seen; exact List.Pairwise.nil
  | cons p rest ih =>
    intro seen
    obtain ⟨kw, doc⟩ := p
    rw [dedupTagged_cons]
    by_cases hm : ph doc.page_content ∈ seen
    · rw [if_pos hm]
      exact ih seen
    · rw [if_neg hm]
      refine List.Pairwise.cons ?_ (ih _)
      intro b hb hc
      apply dedupTagged_not_seen ph _ _ b hb
      rw [← hc]
      exact List.mem_cons_self _ _

lemma dedupTagged_find (ph : List Char → Int) (l : List (String × Doc)) :
    ∀ seen e, e ∈ dedupTagged ph l seen →
      ∃ d : Doc, l.find? (fun p => p.2.page_content == e.content) = some (e.keyword, d)
        ∧ d.page_content = e.content ∧ d.metadata = e.metadata := by
  induction l with
  | nil =>
    intro seen e he
    simp [dedupTagged] at he
  | cons p rest ih =>
    intro seen e he
    obtain ⟨kw, doc⟩ := p
    rw [dedupTagged_cons] at he
    by_cases hm : ph doc.page_content ∈ seen
    · rw [if_pos hm] at he
      obtain ⟨d, hfind, hdc, hdm⟩ := ih seen e he
      have hfalse : (doc.page_content == e.content) = false := by
        rw [beq_eq_false_iff_ne]
        intro heq
        apply dedupTagged_not_seen ph rest seen e he
        rw [← heq]
        exact hm
      rw [List.find?_cons]
      simp only [hfalse]
      exact ⟨d, hfind, hdc, hdm⟩
    · rw [if_neg hm] at he
      rcases List.mem_cons.mp he with rfl | he2
      · refine ⟨doc, ?_, rfl, rfl⟩
        rw [List.find?_cons]
        simp only [mkKR, beq_self_eq_true]
      · obtain ⟨d, hfind, hdc, hdm⟩ := ih _ e he2
        have hfalse : (doc.page_content == e.content) = false := by
          rw [beq_eq_false_iff_ne]
          intro heq
          apply dedupTagged_not_seen ph rest _ e he2
          rw [← heq]
          exact List.mem_cons_self _ _
        rw [List.find?_cons]
        simp only [hfalse]
        exact ⟨d, hfind, hdc, hdm⟩

/-- C3: with a loaded store, `search_by_keywords` returns a subsequence of
the keyword-tagged concatenation of the per-keyword similarity results
(keywords in caller order, per-keyword similarity order preserved), its
entries have pairwise distinct contents (each distinct content appears at
most once), and every entry is tagged with the first keyword that surfaced
a chunk of that content, carrying that chunk's metadata.  This holds for
every content-hash function, hence in particular for Python's `hash`. -/
theorem search_by_keywords_spec (h : RAGQueryHandler) (vs : VectorStore)
    (hv : h.vectorstore = some vs) (keywords : List String) (k : Nat) :
    List.Sublist (search_by_keywords h keywords k)
      ((tagDocs keywords vs.similarity_search k).map (fun p => mkKR p.1 p.2))
    ∧ (search_by_keywords h keywords k).Pairwise (fun a b => a.content ≠ b.content)
    ∧ (∀ e ∈ search_by_keywords h keywords k,
        ∃ d : Doc,
          (tagDocs keywords vs.similarity_search k).find?
              (fun p => p.2.page_content == e.content) = some (e.keyword, d)
          ∧ d.page_content = e.content ∧ d.metadata = e.metadata) := by
  rw [search_by_keywords_eq h vs hv keywords k]
  exact ⟨dedupTagged_sublist _ _ [], dedupTagged_pairwise _ _ [],
    fun e he => dedupTagged_find _ _ [] e he⟩

def wDocX : Doc := { page_content := "X-case".data, metadata := [("source_file", "x.txt")] }

def wDocY : Doc := { page_content := "Y-case".data, metadata := [] }

def wKVS : VectorStore :=
  { similarity_search := fun kw _ =>
      if kw = "A" then [wDocX, wDocY] else if kw = "B" then [wDocX] else []
    similarity_search_with_score := fun _ _ => [] }

def wKHandler : RAGQueryHandler :=
  { vectorstore := some wKVS, llm := fun _ _ => ""
    pyhash := fun c => Int.ofNat (c.map Char.toNat).sum }

/-- Witness for C3: keywords `["A", "B"]` where both surface the same
chunk. -/
theorem search_by_keywords_spec_witness :
    List.Sublist (search_by_keywords wKHandler ["A", "B"] 5)
      ((tagDocs ["A", "B"] wKVS.similarity_search 5).map (fun p => mkKR p.1 p.2))
    ∧ (search_by_keywords wKHandler ["A", "B"] 5).Pairwise
        (fun a b => a.content ≠ b.content)
    ∧ (∀ e ∈ search_by_keywords wKHandler ["A", "B"] 5,
        ∃ d : Doc,
          (tagDocs ["A", "B"] wKVS.similarity_search 5).find?
              (fun p => p.2.page_content == e.content) = some (e.keyword, d)
          ∧ d.page_content = e.content ∧ d.metadata = e.metadata) :=
  search_by_keywords_spec wKHandler wKVS rfl ["A", "B"] 5
